import Mathlib

/-!
Shallow embedding of the clustering-poc repository's clustering core.

The repository has two iterations of a ClusteringService:
the first (src/services/clustering-service.ts) dispatches to the external
density-clustering package (DBSCAN / OPTICS / K-Means) and also provides
similarity queries, a pairwise similarity matrix, centroids and statistics;
the second (the HDBSCAN iteration) delegates to the external hdbscan-ts
package and regroups its label output into clusters.

Vectors are modelled as lists of real numbers.  JavaScript functions that can
throw (cosine similarity on vectors of different lengths, the algorithm
dispatch) are modelled with Option / Except.  The external clustering
libraries are not part of the repository; the service functions that call
them are parameterised by the library entry point, so every theorem below
quantifies over all possible library behaviours.
-/

/-- A document together with its embedding vector
(interface EmbeddedDocument in types.ts; the optional metadata and timestamp
fields play no role in the clustering logic and are omitted). -/
structure EmbeddedDocument where
  id : String
  content : String
  embedding : List ℝ

instance : Inhabited EmbeddedDocument :=
  ⟨⟨"", "", []⟩⟩

/-- A cluster of similar documents (interface Cluster in types.ts). -/
structure Cluster where
  clusterId : ℕ
  documents : List EmbeddedDocument
  centroid : List ℝ

namespace EmbeddingService

/-- The local constant magnitudeA / magnitudeB of
EmbeddingService.cosineSimilarity (embedding-service.ts):
Math.sqrt of the sum of squared components. -/
noncomputable def magnitudeOf (a : List ℝ) : ℝ :=
  Real.sqrt ((a.map (fun v => v * v)).sum)

/-- The local constant dotProduct of EmbeddingService.cosineSimilarity:
the JavaScript reduce over `a` with access to `b[i]` is, for equal lengths,
the sum of the componentwise products. -/
def dotProductOf (a b : List ℝ) : ℝ :=
  (List.zipWith (fun x y => x * y) a b).sum

/-- EmbeddingService.cosineSimilarity (embedding-service.ts).
Throws (modelled as none) when the vectors have different lengths;
returns 0 when either magnitude is 0; otherwise the normalized dot product. -/
noncomputable def cosineSimilarity (a b : List ℝ) : Option ℝ :=
  if a.length ≠ b.length then none
  else if magnitudeOf a = 0 ∨ magnitudeOf b = 0 then some 0
  else some (dotProductOf a b / (magnitudeOf a * magnitudeOf b))

end EmbeddingService

/-- The componentwise-product sum of two equal-length lists as a finite sum. -/
theorem dotProductOf_eq_sum (a : List ℝ) : ∀ b : List ℝ, a.length = b.length →
    EmbeddingService.dotProductOf a b
      = ∑ i ∈ Finset.range a.length, a.getD i 0 * b.getD i 0 := by
  induction a with
  | nil =>
    intro b h
    simp [EmbeddingService.dotProductOf]
  | cons x xs ih =>
    intro b h
    cases b with
    | nil => simp at h
    | cons y ys =>
      have hl : xs.length = ys.length := by
        simpa using h
      have hsum := ih ys hl
      simp only [EmbeddingService.dotProductOf, List.zipWith_cons_cons, List.sum_cons,
        List.length_cons] at hsum ⊢
      rw [hsum, Finset.sum_range_succ']
      simp [add_comm]

/-- The sum of squares of a list as a finite sum. -/
theorem map_mul_self_sum_eq (a : List ℝ) :
    (a.map (fun v => v * v)).sum
      = ∑ i ∈ Finset.range a.length, a.getD i 0 * a.getD i 0 := by
  have hz : EmbeddingService.dotProductOf a a = (a.map (fun v => v * v)).sum := by
    unfold EmbeddingService.dotProductOf
    induction a with
    | nil => simp
    | cons x xs ih => simp [ih]
  rw [← hz, dotProductOf_eq_sum a a rfl]

/-- A sum of squares is nonnegative. -/
theorem map_mul_self_sum_nonneg (a : List ℝ) : 0 ≤ (a.map (fun v => v * v)).sum := by
  apply List.sum_nonneg
  intro x hx
  rcases List.mem_map.mp hx with ⟨v, _, rfl⟩
  exact mul_self_nonneg v

/-- Magnitudes are nonnegative. -/
theorem magnitudeOf_nonneg (a : List ℝ) : 0 ≤ EmbeddingService.magnitudeOf a :=
  Real.sqrt_nonneg _

/-- Cauchy-Schwarz for the list dot product: the square of the dot product is
bounded by the product of the two sums of squares. -/
theorem dotProductOf_sq_le (a b : List ℝ) (h : a.length = b.length) :
    EmbeddingService.dotProductOf a b ^ 2
      ≤ (a.map (fun v => v * v)).sum * (b.map (fun v => v * v)).sum := by
  rw [dotProductOf_eq_sum a b h, map_mul_self_sum_eq a, map_mul_self_sum_eq b, h]
  have hcs := Finset.sum_mul_sq_le_sq_mul_sq (Finset.range b.length)
    (fun i => a.getD i 0) (fun i => b.getD i 0)
  calc (∑ i ∈ Finset.range b.length, a.getD i 0 * b.getD i 0) ^ 2
      ≤ (∑ i ∈ Finset.range b.length, a.getD i 0 ^ 2)
        * ∑ i ∈ Finset.range b.length, b.getD i 0 ^ 2 := hcs
    _ = (∑ i ∈ Finset.range b.length, a.getD i 0 * a.getD i 0)
        * ∑ i ∈ Finset.range b.length, b.getD i 0 * b.getD i 0 := by
        simp [pow_two]

/-- Cosine similarity of equal-length vectors succeeds and lies in [-1, 1]. -/
theorem cosineSimilarity_mem_Icc (a b : List ℝ) (h : a.length = b.length) :
    ∃ s, EmbeddingService.cosineSimilarity a b = some s ∧ -1 ≤ s ∧ s ≤ 1 := by
  unfold EmbeddingService.cosineSimilarity
  rw [if_neg (by simp [h])]
  by_cases hzero : EmbeddingService.magnitudeOf a = 0 ∨ EmbeddingService.magnitudeOf b = 0
  · exact ⟨0, by rw [if_pos hzero], by norm_num, by norm_num⟩
  · have hA0 : EmbeddingService.magnitudeOf a ≠ 0 := fun hc => hzero (Or.inl hc)
    have hB0 : EmbeddingService.magnitudeOf b ≠ 0 := fun hc => hzero (Or.inr hc)
    have hApos : 0 < EmbeddingService.magnitudeOf a :=
      lt_of_le_of_ne (magnitudeOf_nonneg a) (Ne.symm hA0)
    have hBpos : 0 < EmbeddingService.magnitudeOf b :=
      lt_of_le_of_ne (magnitudeOf_nonneg b) (Ne.symm hB0)
    refine ⟨EmbeddingService.dotProductOf a b
      / (EmbeddingService.magnitudeOf a * EmbeddingService.magnitudeOf b),
      by rw [if_neg hzero], ?_⟩
    have hAnn : 0 ≤ (a.map (fun v => v * v)).sum := map_mul_self_sum_nonneg a
    have habs : |EmbeddingService.dotProductOf a b|
        ≤ EmbeddingService.magnitudeOf a * EmbeddingService.magnitudeOf b := by
      have h1 : |EmbeddingService.dotProductOf a b|
          = Real.sqrt (EmbeddingService.dotProductOf a b ^ 2) :=
        (Real.sqrt_sq_eq_abs _).symm
      have h2 : Real.sqrt (EmbeddingService.dotProductOf a b ^ 2)
          ≤ Real.sqrt ((a.map (fun v => v * v)).sum * (b.map (fun v => v * v)).sum) :=
        Real.sqrt_le_sqrt (dotProductOf_sq_le a b h)
      rw [h1]
      unfold EmbeddingService.magnitudeOf
      rw [← Real.sqrt_mul hAnn]
      exact h2
    have hdiv : |EmbeddingService.dotProductOf a b
        / (EmbeddingService.magnitudeOf a * EmbeddingService.magnitudeOf b)| ≤ 1 := by
      rw [abs_div, abs_of_pos (mul_pos hApos hBpos)]
      exact (div_le_one (mul_pos hApos hBpos)).mpr habs
    exact abs_le.mp hdiv

/-- Cosine similarity is symmetric in its two arguments. -/
theorem cosineSimilarity_comm (a b : List ℝ) :
    EmbeddingService.cosineSimilarity a b = EmbeddingService.cosineSimilarity b a := by
  unfold EmbeddingService.cosineSimilarity
  by_cases h : a.length = b.length
  · have hab : ¬ a.length ≠ b.length := by simp [h]
    have hba : ¬ b.length ≠ a.length := by simp [h]
    rw [if_neg hab, if_neg hba]
    have hdot : EmbeddingService.dotProductOf a b = EmbeddingService.dotProductOf b a := by
      unfold EmbeddingService.dotProductOf
      rw [List.zipWith_comm_of_comm (fun x y => x * y) (fun x y => mul_comm x y) a b]
    by_cases hz : EmbeddingService.magnitudeOf a = 0 ∨ EmbeddingService.magnitudeOf b = 0
    · rw [if_pos hz, if_pos (Or.symm hz)]
    · rw [if_neg hz, if_neg (fun hc => hz (Or.symm hc)), hdot, mul_comm]
  · rw [if_pos (by simpa using h), if_pos (by simpa using fun hc => h hc.symm)]

namespace ClusteringService

/-- ClusteringService.cosineDistance (clustering-service.ts):
1 minus the cosine similarity; none models the throw that
cosineSimilarity performs on vectors of different lengths. -/
noncomputable def cosineDistance (a b : List ℝ) : Option ℝ :=
  (EmbeddingService.cosineSimilarity a b).map (fun similarity => 1 - similarity)

end ClusteringService

/-- An all-zero vector has magnitude 0. -/
theorem magnitudeOf_eq_zero_of_all_zero (a : List ℝ) (h : ∀ x ∈ a, x = 0) :
    EmbeddingService.magnitudeOf a = 0 := by
  unfold EmbeddingService.magnitudeOf
  have hsum : (a.map (fun v => v * v)).sum = 0 := by
    apply List.sum_eq_zero
    intro x hx
    rcases List.mem_map.mp hx with ⟨v, hv, rfl⟩
    rw [h v hv, mul_zero]
  rw [hsum, Real.sqrt_zero]

/-- Claim C7: for every pair of equal-length vectors, the cosine distance
(1 minus cosine similarity) is defined, lies in the interval [0, 2], and is
symmetric in its two arguments. -/
theorem claim_C7_cosineDistance_range_symm (a b : List ℝ) (h : a.length = b.length) :
    ∃ d, ClusteringService.cosineDistance a b = some d ∧ 0 ≤ d ∧ d ≤ 2
      ∧ ClusteringService.cosineDistance b a = some d := by
  obtain ⟨s, hs, hlo, hhi⟩ := cosineSimilarity_mem_Icc a b h
  refine ⟨1 - s, ?_, by linarith, by linarith, ?_⟩
  · rw [ClusteringService.cosineDistance, hs, Option.map_some']
  · rw [ClusteringService.cosineDistance, ← cosineSimilarity_comm, hs, Option.map_some']

/-- Witness for claim C7 at the concrete vectors [1, 0] and [0, 1]. -/
theorem claim_C7_witness :
    ∃ d, ClusteringService.cosineDistance [(1:ℝ), 0] [0, 1] = some d ∧ 0 ≤ d ∧ d ≤ 2
      ∧ ClusteringService.cosineDistance [(0:ℝ), 1] [1, 0] = some d :=
  claim_C7_cosineDistance_range_symm [(1:ℝ), 0] [0, 1] rfl

/-- Claim C8: for equal-length vectors where at least one vector is all
zeros (zero magnitude), cosine similarity returns exactly 0 rather than
failing. -/
theorem claim_C8_zero_vector (a b : List ℝ) (h : a.length = b.length)
    (h0 : (∀ x ∈ a, x = 0) ∨ (∀ x ∈ b, x = 0)) :
    EmbeddingService.cosineSimilarity a b = some 0 := by
  unfold EmbeddingService.cosineSimilarity
  rw [if_neg (by simp [h])]
  rcases h0 with ha | hb
  · rw [if_pos (Or.inl (magnitudeOf_eq_zero_of_all_zero a ha))]
  · rw [if_pos (Or.inr (magnitudeOf_eq_zero_of_all_zero b hb))]

/-- Witness for claim C8: the zero vector against [3, 4]. -/
theorem claim_C8_witness :
    EmbeddingService.cosineSimilarity [(0:ℝ), 0] [3, 4] = some 0 :=
  claim_C8_zero_vector [(0:ℝ), 0] [3, 4] rfl
    (Or.inl (by intro x hx; simp at hx; exact hx))

/-- Threading of a JavaScript Array.map whose callback may throw:
the first throw aborts the whole computation (none). -/
def mapOrThrow {α β : Type _} (f : α → Option β) : List α → Option (List β)
  | [] => some []
  | a :: as =>
    match f a, mapOrThrow f as with
    | some b, some bs => some (b :: bs)
    | _, _ => none

namespace ClusteringService

/-- interface ClusteringConfig (types.ts); optional fields are Options. -/
structure ClusteringConfig where
  algorithm : String
  epsilon : Option ℝ
  minPoints : Option ℕ
  k : Option ℕ
  distanceMetric : Option String

/-- The entry points of the external density-clustering package that
clustering-service.ts imports.  The package is not part of the repository,
so the service functions take it as a parameter; an omitted distance
function (none) selects the library's built-in Euclidean distance. -/
structure DensityClusteringLib where
  dbscanRun : List (List ℝ) → ℝ → ℕ → Option (List ℝ → List ℝ → Option ℝ) → List (List ℕ)
  opticsRun : List (List ℝ) → ℝ → ℕ → Option (List ℝ → List ℝ → Option ℝ) → List (List ℕ)
  kmeansRun : List (List ℝ) → ℕ → List (List ℕ)

/-- ClusteringService.calculateCentroid: the componentwise average of the
embeddings, with the dimension count taken from the first document.  The
source's two nested accumulation loops are expressed as one sum per
component: centroid[i] is the sum over all docs of embedding[i], divided by
the number of docs. -/
noncomputable def calculateCentroid (docs : List EmbeddedDocument) : List ℝ :=
  match docs with
  | [] => []
  | d0 :: _ =>
    (List.range d0.embedding.length).map
      (fun i => (docs.map (fun doc => doc.embedding.getD i 0)).sum / (docs.length : ℝ))

/-- ClusteringService.indicesToClusters: each index list becomes a Cluster
whose clusterId is its position, whose documents are the docs at those
indices, and whose centroid is calculateCentroid of those documents. -/
noncomputable def indicesToClusters (docs : List EmbeddedDocument)
    (clusterIndices : List (List ℕ)) : List Cluster :=
  clusterIndices.enum.map (fun p =>
    ⟨p.1, p.2.map (fun idx => docs.getD idx default),
      calculateCentroid (p.2.map (fun idx => docs.getD idx default))⟩)

/-- ClusteringService.clusterWithDBSCAN: epsilon defaults to 0.3, minPoints
to 2; a cosine distanceMetric selects the service's cosineDistance, any
other value leaves the distance function undefined (library default). -/
noncomputable def clusterWithDBSCAN (lib : DensityClusteringLib)
    (config : ClusteringConfig) (docs : List EmbeddedDocument) : List Cluster :=
  indicesToClusters docs
    (lib.dbscanRun (docs.map (fun doc => doc.embedding))
      (config.epsilon.getD 0.3) (config.minPoints.getD 2)
      (if config.distanceMetric = some ("cosine") then some cosineDistance else none))

/-- ClusteringService.clusterWithOPTICS: same parameter handling as the
DBSCAN variant, calling the library's OPTICS entry point. -/
noncomputable def clusterWithOPTICS (lib : DensityClusteringLib)
    (config : ClusteringConfig) (docs : List EmbeddedDocument) : List Cluster :=
  indicesToClusters docs
    (lib.opticsRun (docs.map (fun doc => doc.embedding))
      (config.epsilon.getD 0.3) (config.minPoints.getD 2)
      (if config.distanceMetric = some ("cosine") then some cosineDistance else none))

/-- ClusteringService.clusterWithKMeans: k defaults to
Math.ceil(Math.sqrt(docs.length / 2)). -/
noncomputable def clusterWithKMeans (lib : DensityClusteringLib)
    (config : ClusteringConfig) (docs : List EmbeddedDocument) : List Cluster :=
  indicesToClusters docs
    (lib.kmeansRun (docs.map (fun doc => doc.embedding))
      (config.k.getD (Nat.ceil (Real.sqrt ((docs.length : ℝ) / 2)))))

/-- ClusteringService.clusterDocuments: empty input short-circuits to an
empty cluster list; otherwise dispatch on the algorithm name, throwing
(Except.error) for unsupported algorithms. -/
noncomputable def clusterDocuments (lib : DensityClusteringLib)
    (config : ClusteringConfig) (docs : List EmbeddedDocument) :
    Except String (List Cluster) :=
  if docs.length = 0 then Except.ok []
  else
    match config.algorithm with
    | "dbscan" => Except.ok (clusterWithDBSCAN lib config docs)
    | "optics" => Except.ok (clusterWithOPTICS lib config docs)
    | "kmeans" => Except.ok (clusterWithKMeans lib config docs)
    | a => Except.error ("Unsupported algorithm: " ++ a)

/-- The final step of findSimilarDocuments, JavaScript
`limit ? similarities.slice(0, limit) : similarities`: slice to the limit
only when the limit is truthy (present and nonzero). -/
def applyLimit {γ : Type _} (limit : Option ℕ) (l : List γ) : List γ :=
  match limit with
  | some n => if n ≠ 0 then l.take n else l
  | none => l

/-- ClusteringService.findSimilarDocuments: drop the query itself by id,
compute the cosine similarity to each remaining document (a length mismatch
throws, modelled by mapOrThrow / none), keep those at or above the
threshold, sort by descending similarity (JavaScript's stable sort with
comparator b.similarity - a.similarity, modelled by mergeSort), and slice to
the limit when the limit is truthy.  The source defaults threshold to 0.8 at
the call boundary; here it is an explicit argument. -/
noncomputable def findSimilarDocuments (query : EmbeddedDocument)
    (docs : List EmbeddedDocument) (threshold : ℝ) (limit : Option ℕ) :
    Option (List (EmbeddedDocument × ℝ)) :=
  (mapOrThrow
      (fun doc => (EmbeddingService.cosineSimilarity query.embedding doc.embedding).map
        (fun s => (doc, s)))
      (docs.filter (fun doc => decide (doc.id ≠ query.id)))).map
    (fun similarities =>
      applyLimit limit
        ((similarities.filter (fun item => decide (threshold ≤ item.2))).mergeSort
          (fun x y => decide (y.2 ≤ x.2))))

/-- The final contents of cell (i, j) of the matrix filled by
ClusteringService.calculateSimilarityMatrix: the source iterates the upper
triangle (j from i), writing 1 on the diagonal and the cosine similarity of
the pair to both (i, j) and (j, i), so each cell holds the similarity
computed from the (smaller index, larger index) argument pair. -/
noncomputable def similarityMatrixEntry (docs : List EmbeddedDocument) (i j : ℕ) :
    Option ℝ :=
  if i = j then some 1
  else if i < j then
    EmbeddingService.cosineSimilarity
      ((docs.map (fun doc => doc.embedding)).getD i [])
      ((docs.map (fun doc => doc.embedding)).getD j [])
  else
    EmbeddingService.cosineSimilarity
      ((docs.map (fun doc => doc.embedding)).getD j [])
      ((docs.map (fun doc => doc.embedding)).getD i [])

/-- ClusteringService.calculateSimilarityMatrix: an n-by-n matrix with 1 on
the diagonal and the cosine similarity elsewhere, assembled row by row from
similarityMatrixEntry.  Any length-mismatch throw inside the loops aborts
the whole computation (none). -/
noncomputable def calculateSimilarityMatrix (docs : List EmbeddedDocument) :
    Option (List (List ℝ)) :=
  mapOrThrow (fun i =>
      mapOrThrow (fun j => similarityMatrixEntry docs i j)
        (List.range docs.length))
    (List.range docs.length)

/-- The record returned by ClusteringService.getClusteringStats.  The min
and max cluster sizes live in the extended reals because JavaScript's
Math.min() / Math.max() over an empty spread evaluate to +Infinity and
-Infinity. -/
structure ClusteringStats where
  numClusters : ℕ
  avgClusterSize : ℝ
  minClusterSize : EReal
  maxClusterSize : EReal
  totalDocuments : ℕ

/-- ClusteringService.getClusteringStats.  The JavaScript expression
`totalDocs / clusters.length || 0` maps the NaN arising from 0/0 (the only
non-finite case, since totalDocs is 0 whenever there are no clusters) to 0;
Lean's real division already evaluates 0/0 to 0, so the field is the plain
quotient.  Math.min(...sizes) / Math.max(...sizes) are folds of min / max
with the empty-spread values +Infinity / -Infinity as base. -/
noncomputable def getClusteringStats (clusters : List Cluster) : ClusteringStats :=
  let sizes : List ℕ := clusters.map (fun c => c.documents.length)
  let totalDocs : ℕ := sizes.foldl (fun sum size => sum + size) 0
  ⟨clusters.length,
    (totalDocs : ℝ) / (clusters.length : ℝ),
    (sizes.map (fun s => (s : EReal))).foldr min ⊤,
    (sizes.map (fun s => (s : EReal))).foldr max ⊥,
    totalDocs⟩

end ClusteringService

/-- Modelled from the spec: the second iteration's ClusteringConfig as read
by its ClusteringService (the HDBSCAN iteration's types file is not among
the sources; spec section 3 lists exactly the fields the service reads:
minClusterSize, minSamples and the metric). -/
structure HdbscanClusteringConfig where
  minClusterSize : Option ℕ
  minSamples : Option ℕ
  metric : Option String

namespace HdbscanClusteringService

/-- One step of the Map-building loop in clusterWithHDBSCAN: push docIndex
onto the entry for the given label, keeping JavaScript Map insertion order
(a new label is appended at the end). -/
def addToLabel : List (Int × List ℕ) → Int → ℕ → List (Int × List ℕ)
  | [], label, i => [(label, [i])]
  | (l, is) :: rest, label, i =>
    if l = label then (l, is ++ [i]) :: rest
    else (l, is) :: addToLabel rest label i

/-- The labels.forEach loop of clusterWithHDBSCAN, carrying the running
document index: noise labels (-1) are skipped, every other label gets the
document index appended to its Map entry. -/
def buildClusterMapFrom (n : ℕ) : List Int → List (Int × List ℕ) → List (Int × List ℕ)
  | [], m => m
  | label :: rest, m =>
    buildClusterMapFrom (n + 1) rest (if label = -1 then m else addToLabel m label n)

/-- The clusterMap of clusterWithHDBSCAN, built from the label array
returned by the library's fit. -/
def buildClusterMap (labels : List Int) : List (Int × List ℕ) :=
  buildClusterMapFrom 0 labels []

/-- Array.from(clusterMap.values()): the per-cluster index lists in label
insertion order. -/
def clusterIndicesOfLabels (labels : List Int) : List (List ℕ) :=
  (buildClusterMap labels).map Prod.snd

/-- clusterWithHDBSCAN of the second iteration's ClusteringService: run the
external hdbscan-ts fit (a parameter here, since the package is not part of
the repository) with minClusterSize and minSamples defaulting to 2 and the
metric defaulting to euclidean, group the returned labels, and convert the
index lists to clusters.  indicesToClusters and calculateCentroid have
identical bodies in both iterations, so the first iteration's embedding is
reused. -/
noncomputable def clusterWithHDBSCAN (fit : ℕ → ℕ → String → List (List ℝ) → List Int)
    (config : HdbscanClusteringConfig) (docs : List EmbeddedDocument) : List Cluster :=
  let minClusterSize := config.minClusterSize.getD 2
  let minSamples := config.minSamples.getD 2
  let metric := config.metric.getD ("euclidean")
  let dataset := docs.map (fun doc => doc.embedding)
  let labels := fit minClusterSize minSamples metric dataset
  ClusteringService.indicesToClusters docs (clusterIndicesOfLabels labels)

/-- clusterDocuments of the second iteration: empty input short-circuits,
otherwise HDBSCAN clustering (no algorithm dispatch and no error path). -/
noncomputable def clusterDocuments (fit : ℕ → ℕ → String → List (List ℝ) → List Int)
    (config : HdbscanClusteringConfig) (docs : List EmbeddedDocument) : List Cluster :=
  if docs.length = 0 then [] else clusterWithHDBSCAN fit config docs

end HdbscanClusteringService

/-- Proof helper: how many times document index j is inserted by the
forEach loop over the given labels when the running index starts at n
(0 or 1, since each position is visited once). -/
def labelHit : List Int → ℕ → ℕ → ℕ
  | [], _, _ => 0
  | label :: rest, n, j => (if n = j ∧ label ≠ -1 then 1 else 0) + labelHit rest (n + 1) j

/-- addToLabel adds exactly one occurrence of the inserted index to the
concatenation of the map's index lists. -/
theorem addToLabel_flatten_count (m : List (Int × List ℕ)) (label : Int) (i j : ℕ) :
    (((HdbscanClusteringService.addToLabel m label i).map Prod.snd).flatten).count j
      = ((m.map Prod.snd).flatten).count j + (if i = j then 1 else 0) := by
  induction m with
  | nil =>
    simp [HdbscanClusteringService.addToLabel, List.count_cons]
  | cons hd rest ih =>
    rcases hd with ⟨l, is⟩
    by_cases hl : l = label
    · have hone : List.count j [i] = if i = j then 1 else 0 := by
        by_cases hij : i = j
        · subst hij
          simp
        · simp [List.count_cons, hij]
      simp only [HdbscanClusteringService.addToLabel, if_pos hl, List.map_cons,
        List.flatten_cons, List.count_append]
      rw [hone]
      omega
    · simp only [HdbscanClusteringService.addToLabel, if_neg hl, List.map_cons,
        List.flatten_cons, List.count_append, ih]
      omega

/-- The forEach loop adds labelHit occurrences of each index to the
concatenation of the map's index lists. -/
theorem buildClusterMapFrom_flatten_count (labels : List Int) :
    ∀ (n : ℕ) (m : List (Int × List ℕ)) (j : ℕ),
    (((HdbscanClusteringService.buildClusterMapFrom n labels m).map Prod.snd).flatten).count j
      = ((m.map Prod.snd).flatten).count j + labelHit labels n j := by
  induction labels with
  | nil =>
    intro n m j
    simp [HdbscanClusteringService.buildClusterMapFrom, labelHit]
  | cons label rest ih =>
    intro n m j
    by_cases hl : label = -1
    · simp only [HdbscanClusteringService.buildClusterMapFrom, if_pos hl, labelHit, hl]
      rw [ih]
      simp
    · simp only [HdbscanClusteringService.buildClusterMapFrom, if_neg hl, labelHit]
      rw [ih, addToLabel_flatten_count]
      by_cases hnj : n = j
      · rw [if_pos hnj, if_pos ⟨hnj, hl⟩]
        omega
      · rw [if_neg hnj, if_neg (fun hc => hnj hc.1)]
        omega

/-- Indices below the running start are never hit. -/
theorem labelHit_eq_zero_of_lt (labels : List Int) :
    ∀ (n j : ℕ), j < n → labelHit labels n j = 0 := by
  induction labels with
  | nil =>
    intro n j _
    rfl
  | cons label rest ih =>
    intro n j hj
    have hcond : ¬ (n = j ∧ label ≠ -1) := fun hc => absurd hc.1 (by omega)
    simp only [labelHit, if_neg hcond, zero_add]
    exact ih (n + 1) j (by omega)

/-- An index inside the visited range is hit exactly once, unless its label
is the noise label -1. -/
theorem labelHit_eq (labels : List Int) :
    ∀ (n j : ℕ), n ≤ j → j < n + labels.length →
    labelHit labels n j = if labels.getD (j - n) 0 = -1 then 0 else 1 := by
  induction labels with
  | nil =>
    intro n j h1 h2
    simp only [List.length_nil, Nat.add_zero] at h2
    omega
  | cons label rest ih =>
    intro n j h1 h2
    by_cases hnj : n = j
    · have h0 : labelHit rest (n + 1) j = 0 :=
        labelHit_eq_zero_of_lt rest (n + 1) j (by omega)
      have hget : (label :: rest).getD (j - n) 0 = label := by
        have hz : j - n = 0 := by omega
        rw [hz]
        rfl
      simp only [labelHit, h0, Nat.add_zero, hget]
      by_cases hl : label = -1
      · have hcond : ¬ (n = j ∧ label ≠ -1) := fun hc => hc.2 hl
        rw [if_neg hcond, if_pos hl]
      · have hcond : n = j ∧ label ≠ -1 := ⟨hnj, hl⟩
        rw [if_pos hcond, if_neg hl]
    · have hs : n + 1 ≤ j := by omega
      have hcond : ¬ (n = j ∧ label ≠ -1) := fun hc => absurd hc.1 hnj
      have h2b : j < (n + 1) + rest.length := by
        simp only [List.length_cons] at h2
        omega
      simp only [labelHit, if_neg hcond, Nat.zero_add]
      rw [ih (n + 1) j hs h2b]
      have hidx : j - n = (j - (n + 1)) + 1 := by omega
      rw [hidx]
      simp

/-- A list of naturals summing to at most 1 has exactly sum-many nonzero
entries. -/
theorem countP_ne_zero_eq_sum (l : List ℕ) (h : l.sum ≤ 1) :
    l.countP (fun x => decide (x ≠ 0)) = l.sum := by
  induction l with
  | nil => rfl
  | cons x xs ih =>
    have hx : xs.sum ≤ 1 := by
      simp at h
      omega
    rw [List.countP_cons, List.sum_cons, ih hx]
    by_cases hx0 : x = 0
    · subst hx0
      simp
    · have h1 : x = 1 ∧ xs.sum = 0 := by
        simp at h
        omega
      rw [h1.1, h1.2]
      simp

/-- Counting the sublists containing j equals counting the nonzero
per-sublist multiplicities of j. -/
theorem countP_mem_eq (L : List (List ℕ)) (j : ℕ) :
    L.countP (fun c => decide (j ∈ c))
      = (L.map (fun c => c.count j)).countP (fun x => decide (x ≠ 0)) := by
  rw [List.countP_map]
  apply List.countP_congr
  intro c _
  simp only [Function.comp, decide_eq_true_eq]
  constructor
  · intro hmem
    exact Nat.pos_iff_ne_zero.mp (List.count_pos_iff.mpr hmem)
  · intro hne
    exact List.count_pos_iff.mp (Nat.pos_iff_ne_zero.mpr hne)

/-- The summed per-sublist multiplicities equal the multiplicity in the
concatenation. -/
theorem sum_map_count_flatten (L : List (List ℕ)) (j : ℕ) :
    (L.map (fun c => c.count j)).sum = L.flatten.count j := by
  induction L with
  | nil => simp
  | cons c rest ih => simp [List.count_append, ih]

/-- Claim C1: the clusters built by the HDBSCAN iteration partition the
non-noise points: for every label array the library's fit may return, an
input position whose label is -1 (noise) lies in none of the produced
per-cluster index lists, and every other position lies in exactly one of
them; and the documents of the returned Cluster objects are exactly the
input documents at those index lists, so the same holds of the returned
clusters themselves. -/
theorem claim_C1_hdbscan_partition (labels : List Int) (docs : List EmbeddedDocument)
    (i : ℕ) (hi : i < labels.length) :
    (HdbscanClusteringService.clusterIndicesOfLabels labels).countP
        (fun c => decide (i ∈ c))
      = (if labels.getD i 0 = -1 then 0 else 1)
    ∧ (ClusteringService.indicesToClusters docs
          (HdbscanClusteringService.clusterIndicesOfLabels labels)).map Cluster.documents
      = (HdbscanClusteringService.clusterIndicesOfLabels labels).map
          (fun idxs => idxs.map (fun idx => docs.getD idx default)) := by
  constructor
  · have hflat : ((HdbscanClusteringService.buildClusterMap labels).map Prod.snd).flatten.count i
        = if labels.getD i 0 = -1 then 0 else 1 := by
      unfold HdbscanClusteringService.buildClusterMap
      rw [buildClusterMapFrom_flatten_count labels 0 [] i]
      have h2 := labelHit_eq labels 0 i (Nat.zero_le i) (by omega)
      simp only [Nat.sub_zero] at h2
      simpa using h2
    have hval : (((HdbscanClusteringService.buildClusterMap labels).map Prod.snd).map
        (fun c => c.count i)).sum = if labels.getD i 0 = -1 then 0 else 1 := by
      rw [sum_map_count_flatten]
      exact hflat
    have hle : (((HdbscanClusteringService.buildClusterMap labels).map Prod.snd).map
        (fun c => c.count i)).sum ≤ 1 := by
      rw [hval]
      split
      all_goals omega
    unfold HdbscanClusteringService.clusterIndicesOfLabels
    rw [countP_mem_eq, countP_ne_zero_eq_sum _ hle, hval]
  · unfold ClusteringService.indicesToClusters
    rw [List.map_map]
    have hsnd : (HdbscanClusteringService.clusterIndicesOfLabels labels).map
          (fun idxs => idxs.map (fun idx => docs.getD idx default))
        = ((HdbscanClusteringService.clusterIndicesOfLabels labels).enum.map Prod.snd).map
          (fun idxs => idxs.map (fun idx => docs.getD idx default)) := by
      rw [List.enum_map_snd]
    rw [hsnd, List.map_map]
    rfl

/-- Witness for claim C1: labels [0, -1, 0], position 0 (clustered). -/
theorem claim_C1_witness :
    0 < ([0, -1, 0] : List Int).length
    ∧ ((HdbscanClusteringService.clusterIndicesOfLabels [0, -1, 0]).countP
          (fun c => decide (0 ∈ c))
        = (if ([0, -1, 0] : List Int).getD 0 0 = -1 then 0 else 1)
      ∧ (ClusteringService.indicesToClusters []
            (HdbscanClusteringService.clusterIndicesOfLabels [0, -1, 0])).map Cluster.documents
        = (HdbscanClusteringService.clusterIndicesOfLabels [0, -1, 0]).map
            (fun idxs => idxs.map (fun idx => ([] : List EmbeddedDocument).getD idx default))) :=
  ⟨by decide, claim_C1_hdbscan_partition [0, -1, 0] [] 0 (by decide)⟩

/-- Reading every position of a list through getD over its index range
reproduces the list. -/
theorem map_range_getD (l : List ℝ) :
    (List.range l.length).map (fun i => l.getD i 0) = l := by
  apply List.ext_getElem
  · simp
  · intro k h1 h2
    rw [List.getElem_map, List.getElem_range, List.getD_eq_getElem]

/-- The centroid of a singleton list is the single member's embedding. -/
theorem calculateCentroid_singleton (d : EmbeddedDocument) :
    ClusteringService.calculateCentroid [d] = d.embedding := by
  have hmap : (ClusteringService.calculateCentroid [d])
      = (List.range d.embedding.length).map (fun i => d.embedding.getD i 0) := by
    simp only [ClusteringService.calculateCentroid]
    apply List.map_congr_left
    intro i _
    simp
  rw [hmap, map_range_getD]

/-- Claim C6: for a non-empty cluster whose members all have dimension n,
the centroid has dimension n, each component is the arithmetic mean of the
members' components, and for a singleton cluster the centroid equals the
single member's embedding exactly. -/
theorem claim_C6_centroid_mean (docs : List EmbeddedDocument) (n : ℕ)
    (hne : docs ≠ []) (hdim : ∀ d ∈ docs, d.embedding.length = n) :
    (ClusteringService.calculateCentroid docs).length = n
    ∧ (∀ i, i < n → (ClusteringService.calculateCentroid docs).getD i 0
        = (docs.map (fun d => d.embedding.getD i 0)).sum / (docs.length : ℝ))
    ∧ (∀ d, docs = [d] → ClusteringService.calculateCentroid docs = d.embedding) := by
  cases docs with
  | nil => exact absurd rfl hne
  | cons d0 rest =>
    have hd0 : d0.embedding.length = n := hdim d0 (List.mem_cons_self d0 rest)
    refine ⟨?_, ?_, ?_⟩
    · simp [ClusteringService.calculateCentroid, hd0]
    · intro i hi
      have hlen : (ClusteringService.calculateCentroid (d0 :: rest)).length = n := by
        simp [ClusteringService.calculateCentroid, hd0]
      have hi2 : i < (ClusteringService.calculateCentroid (d0 :: rest)).length := by
        rw [hlen]
        exact hi
      rw [List.getD_eq_getElem _ _ hi2]
      simp only [ClusteringService.calculateCentroid, List.getElem_map, List.getElem_range]
    · intro d hd
      rw [hd]
      exact calculateCentroid_singleton d

/-- Witness for claim C6: the singleton cluster with embedding [2, 3]. -/
theorem claim_C6_witness :
    (ClusteringService.calculateCentroid [⟨"a", "", [2, 3]⟩]).length = 2
    ∧ (∀ i, i < 2 → (ClusteringService.calculateCentroid [⟨"a", "", [2, 3]⟩]).getD i 0
        = (([⟨"a", "", [2, 3]⟩] : List EmbeddedDocument).map
            (fun d => d.embedding.getD i 0)).sum
          / (([⟨"a", "", [2, 3]⟩] : List EmbeddedDocument).length : ℝ))
    ∧ (∀ d, ([⟨"a", "", [2, 3]⟩] : List EmbeddedDocument) = [d]
        → ClusteringService.calculateCentroid [⟨"a", "", [2, 3]⟩] = d.embedding) :=
  claim_C6_centroid_mean [⟨"a", "", [2, 3]⟩] 2 (by simp)
    (by intro d hd; simp at hd; subst hd; rfl)

/-- Claim C9: the reported average cluster size is the total number of
documents divided by the number of clusters, and for an empty cluster list
it is 0 (not NaN: the JavaScript || 0 catches the 0/0 case). -/
theorem claim_C9_stats_avg (clusters : List Cluster) :
    (ClusteringService.getClusteringStats clusters).avgClusterSize
      = ((ClusteringService.getClusteringStats clusters).totalDocuments : ℝ)
        / ((ClusteringService.getClusteringStats clusters).numClusters : ℝ)
    ∧ (clusters = []
        → (ClusteringService.getClusteringStats clusters).avgClusterSize = 0) := by
  constructor
  · rfl
  · intro h
    subst h
    simp [ClusteringService.getClusteringStats]

/-- Witness for claim C9 at the empty cluster list. -/
theorem claim_C9_witness :
    (ClusteringService.getClusteringStats []).avgClusterSize
      = ((ClusteringService.getClusteringStats []).totalDocuments : ℝ)
        / ((ClusteringService.getClusteringStats []).numClusters : ℝ)
    ∧ (ClusteringService.getClusteringStats ([] : List Cluster)).avgClusterSize = 0 :=
  ⟨(claim_C9_stats_avg []).1, (claim_C9_stats_avg []).2 rfl⟩

/-- Claim C10: on an empty cluster list the statistics report min size
+Infinity (the EReal top), max size -Infinity (the EReal bottom), and 0 for
the cluster count and the total document count. -/
theorem claim_C10_stats_empty :
    (ClusteringService.getClusteringStats []).minClusterSize = (⊤ : EReal)
    ∧ (ClusteringService.getClusteringStats []).maxClusterSize = (⊥ : EReal)
    ∧ (ClusteringService.getClusteringStats []).numClusters = 0
    ∧ (ClusteringService.getClusteringStats []).totalDocuments = 0 :=
  ⟨rfl, rfl, rfl, rfl⟩

/-- The elementwise description of a successful mapOrThrow: the output has
the input's length and each output position is the successful image of the
corresponding input position. -/
theorem mapOrThrow_getD {α β : Type _} (f : α → Option β) (da : α) (db : β) :
    ∀ (l : List α) (ys : List β), mapOrThrow f l = some ys →
      ys.length = l.length
      ∧ ∀ k, k < l.length → f (l.getD k da) = some (ys.getD k db) := by
  intro l
  induction l with
  | nil =>
    intro ys h
    simp only [mapOrThrow, Option.some.injEq] at h
    subst h
    exact ⟨rfl, fun k hk => absurd hk (by simp)⟩
  | cons a as ih =>
    intro ys h
    simp only [mapOrThrow] at h
    cases hfa : f a with
    | none =>
      rw [hfa] at h
      simp at h
    | some b =>
      cases hrec : mapOrThrow f as with
      | none =>
        rw [hfa, hrec] at h
        simp at h
      | some bs =>
        rw [hfa, hrec] at h
        simp only [Option.some.injEq] at h
        subst h
        obtain ⟨hlen, hvals⟩ := ih bs hrec
        refine ⟨by simp [hlen], ?_⟩
        intro k hk
        cases k with
        | zero =>
          simpa using hfa
        | succ k2 =>
          simp only [List.getD_cons_succ]
          exact hvals k2 (by simpa using hk)

/-- Every element of a successful mapOrThrow output is the successful image
of some input element. -/
theorem mapOrThrow_mem {α β : Type _} (f : α → Option β) :
    ∀ (l : List α) (ys : List β), mapOrThrow f l = some ys →
      ∀ y ∈ ys, ∃ x ∈ l, f x = some y := by
  intro l
  induction l with
  | nil =>
    intro ys h y hy
    simp only [mapOrThrow, Option.some.injEq] at h
    subst h
    simp at hy
  | cons a as ih =>
    intro ys h y hy
    simp only [mapOrThrow] at h
    cases hfa : f a with
    | none =>
      rw [hfa] at h
      simp at h
    | some b =>
      cases hrec : mapOrThrow f as with
      | none =>
        rw [hfa, hrec] at h
        simp at h
      | some bs =>
        rw [hfa, hrec] at h
        simp only [Option.some.injEq] at h
        subst h
        rcases List.mem_cons.mp hy with rfl | hmem
        · exact ⟨a, List.mem_cons_self a as, hfa⟩
        · obtain ⟨x, hx, hfx⟩ := ih bs hrec y hmem
          exact ⟨x, List.mem_cons_of_mem a hx, hfx⟩

/-- getD on a range below the bound is the index itself. -/
theorem range_getD (n k : ℕ) (h : k < n) : (List.range n).getD k 0 = k := by
  rw [List.getD_eq_getElem _ _ (by simpa using h), List.getElem_range]

/-- The matrix cell expression is symmetric in its two indices: both
orderings read the similarity of the (smaller, larger) argument pair. -/
theorem similarityMatrixEntry_symm (docs : List EmbeddedDocument) (i j : ℕ) :
    ClusteringService.similarityMatrixEntry docs i j
      = ClusteringService.similarityMatrixEntry docs j i := by
  unfold ClusteringService.similarityMatrixEntry
  by_cases hij : i = j
  · subst hij
    rfl
  · rcases Nat.lt_or_gt_of_ne hij with hlt | hgt
    · rw [if_neg hij, if_pos hlt, if_neg (Ne.symm hij),
        if_neg (Nat.not_lt.mpr (Nat.le_of_lt hlt))]
    · rw [if_neg hij, if_neg (Nat.not_lt.mpr (Nat.le_of_lt hgt)),
        if_neg (Ne.symm hij), if_pos hgt]

/-- Claim C5: a successfully computed similarity matrix is square with side
docs.length, has exactly 1 in every diagonal cell, and is symmetric. -/
theorem claim_C5_matrix_symm_diag (docs : List EmbeddedDocument) (m : List (List ℝ))
    (_hne : docs ≠ []) (h : ClusteringService.calculateSimilarityMatrix docs = some m) :
    m.length = docs.length
    ∧ (∀ i, i < docs.length → (m.getD i []).getD i 0 = 1)
    ∧ (∀ i j, i < docs.length → j < docs.length
        → (m.getD i []).getD j 0 = (m.getD j []).getD i 0) := by
  unfold ClusteringService.calculateSimilarityMatrix at h
  obtain ⟨hlen, hrows⟩ := mapOrThrow_getD _ 0 ([] : List ℝ) _ m h
  have hentry : ∀ i j, i < docs.length → j < docs.length →
      ClusteringService.similarityMatrixEntry docs i j = some ((m.getD i []).getD j 0) := by
    intro i j hi hj
    have hrow := hrows i (by simpa using hi)
    rw [range_getD _ _ hi] at hrow
    obtain ⟨_, hcells⟩ := mapOrThrow_getD _ 0 (0 : ℝ) _ _ hrow
    have hcell := hcells j (by simpa using hj)
    rw [range_getD _ _ hj] at hcell
    exact hcell
  refine ⟨by simpa using hlen, ?_, ?_⟩
  · intro i hi
    have hd := hentry i i hi hi
    unfold ClusteringService.similarityMatrixEntry at hd
    rw [if_pos rfl] at hd
    exact ((Option.some.injEq _ _).mp hd).symm
  · intro i j hi hj
    have h1 := hentry i j hi hj
    have h2 := hentry j i hj hi
    rw [similarityMatrixEntry_symm docs i j, h2] at h1
    exact ((Option.some.injEq _ _).mp h1).symm

/-- Witness for claim C5: the single document with embedding [1] yields the
one-by-one matrix [[1]]. -/
theorem claim_C5_witness :
    ([⟨"a", "", [1]⟩] : List EmbeddedDocument) ≠ []
    ∧ ClusteringService.calculateSimilarityMatrix [⟨"a", "", [1]⟩] = some [[1]]
    ∧ ([[1]] : List (List ℝ)).length = ([⟨"a", "", [1]⟩] : List EmbeddedDocument).length
    ∧ (∀ i, i < ([⟨"a", "", [1]⟩] : List EmbeddedDocument).length
        → ((([[1]] : List (List ℝ))).getD i []).getD i 0 = 1)
    ∧ (∀ i j, i < ([⟨"a", "", [1]⟩] : List EmbeddedDocument).length
        → j < ([⟨"a", "", [1]⟩] : List EmbeddedDocument).length
        → ((([[1]] : List (List ℝ))).getD i []).getD j 0
          = ((([[1]] : List (List ℝ))).getD j []).getD i 0) := by
  have hmat : ClusteringService.calculateSimilarityMatrix [⟨"a", "", [1]⟩] = some [[1]] := by
    unfold ClusteringService.calculateSimilarityMatrix
    simp [List.range_succ, mapOrThrow, ClusteringService.similarityMatrixEntry]
  exact ⟨by simp, hmat,
    claim_C5_matrix_symm_diag [⟨"a", "", [1]⟩] [[1]] (by simp) hmat⟩

/-- Applying a limit yields a sublist. -/
theorem applyLimit_sublist {γ : Type _} (limit : Option ℕ) (l : List γ) :
    (ClusteringService.applyLimit limit l).Sublist l := by
  cases limit with
  | none => exact List.Sublist.refl l
  | some n =>
    simp only [ClusteringService.applyLimit]
    by_cases hn : n ≠ 0
    · rw [if_pos hn]
      exact List.take_sublist n l
    · rw [if_neg hn]

/-- Structural description of a successful findSimilarDocuments call: every
returned pair comes from an input document other than the query, its
similarity is the cosine similarity to the query and is at least the
threshold, and the output is sorted by non-increasing similarity. -/
theorem findSimilarDocuments_spec (query : EmbeddedDocument) (docs : List EmbeddedDocument)
    (threshold : ℝ) (limit : Option ℕ) (out : List (EmbeddedDocument × ℝ))
    (h : ClusteringService.findSimilarDocuments query docs threshold limit = some out) :
    (∀ p ∈ out, p.1 ∈ docs ∧ p.1.id ≠ query.id ∧ threshold ≤ p.2
      ∧ EmbeddingService.cosineSimilarity query.embedding p.1.embedding = some p.2)
    ∧ List.Pairwise (fun p q : EmbeddedDocument × ℝ => q.2 ≤ p.2) out := by
  unfold ClusteringService.findSimilarDocuments at h
  rw [Option.map_eq_some'] at h
  obtain ⟨sims, hsims, hout⟩ := h
  have htrans : ∀ x y z : EmbeddedDocument × ℝ,
      (fun p q : EmbeddedDocument × ℝ => decide (q.2 ≤ p.2)) x y = true →
      (fun p q : EmbeddedDocument × ℝ => decide (q.2 ≤ p.2)) y z = true →
      (fun p q : EmbeddedDocument × ℝ => decide (q.2 ≤ p.2)) x z = true := by
    intro x y z hxy hyz
    simp only [decide_eq_true_eq] at hxy hyz ⊢
    exact le_trans hyz hxy
  have htot : ∀ x y : EmbeddedDocument × ℝ,
      ((fun p q : EmbeddedDocument × ℝ => decide (q.2 ≤ p.2)) x y
        || (fun p q : EmbeddedDocument × ℝ => decide (q.2 ≤ p.2)) y x) = true := by
    intro x y
    simp only [Bool.or_eq_true, decide_eq_true_eq]
    exact le_total y.2 x.2
  have hpairwise : List.Pairwise (fun p q : EmbeddedDocument × ℝ => q.2 ≤ p.2)
      ((sims.filter (fun item => decide (threshold ≤ item.2))).mergeSort
        (fun x y => decide (y.2 ≤ x.2))) := by
    have hp := List.sorted_mergeSort htrans htot
      (sims.filter (fun item => decide (threshold ≤ item.2)))
    exact hp.imp (fun hab => by simpa using hab)
  have hout_sub : ∀ p ∈ out,
      p ∈ (sims.filter (fun item => decide (threshold ≤ item.2))).mergeSort
        (fun x y => decide (y.2 ≤ x.2)) := by
    intro p hp
    rw [← hout] at hp
    exact List.Sublist.mem hp (applyLimit_sublist limit _)
  constructor
  · intro p hpout
    have hp1 := hout_sub p hpout
    have hp2 := (List.mergeSort_perm _ _).mem_iff.mp hp1
    rw [List.mem_filter] at hp2
    obtain ⟨hpsims, hpthr⟩ := hp2
    have hpthr2 : threshold ≤ p.2 := by simpa using hpthr
    obtain ⟨x, hxfil, hfx⟩ := mapOrThrow_mem _ _ sims hsims p hpsims
    rw [Option.map_eq_some'] at hfx
    obtain ⟨s, hcos, hxs⟩ := hfx
    rw [List.mem_filter] at hxfil
    obtain ⟨hxdocs, hxid⟩ := hxfil
    have hxid2 : x.id ≠ query.id := by simpa using hxid
    subst hxs
    exact ⟨hxdocs, hxid2, hpthr2, hcos⟩
  · rw [← hout]
    exact List.Pairwise.sublist (applyLimit_sublist limit _) hpairwise

/-- Claim C4: a successful findSimilar result never contains the query's
identifier, contains only pairs whose similarity is at least the threshold,
and is sorted with non-increasing similarity values. -/
theorem claim_C4_findSimilar (query : EmbeddedDocument) (docs : List EmbeddedDocument)
    (threshold : ℝ) (limit : Option ℕ) (out : List (EmbeddedDocument × ℝ))
    (h : ClusteringService.findSimilarDocuments query docs threshold limit = some out) :
    (∀ p ∈ out, p.1.id ≠ query.id ∧ threshold ≤ p.2)
    ∧ List.Pairwise (fun p q : EmbeddedDocument × ℝ => q.2 ≤ p.2) out := by
  obtain ⟨hmem, hsort⟩ := findSimilarDocuments_spec query docs threshold limit out h
  exact ⟨fun p hp => ⟨(hmem p hp).2.1, (hmem p hp).2.2.1⟩, hsort⟩

/-- The magnitude of a one-component vector with a nonnegative component is
that component. -/
theorem magnitudeOf_singleton (x : ℝ) (hx : 0 ≤ x) :
    EmbeddingService.magnitudeOf [x] = x := by
  unfold EmbeddingService.magnitudeOf
  simp only [List.map_cons, List.map_nil, List.sum_cons, List.sum_nil, add_zero]
  rw [← pow_two, Real.sqrt_sq hx]

/-- The cosine similarity of two one-component vectors with positive
components is exactly 1. -/
theorem cosineSimilarity_singleton (x y : ℝ) (hx : 0 < x) (hy : 0 < y) :
    EmbeddingService.cosineSimilarity [x] [y] = some 1 := by
  unfold EmbeddingService.cosineSimilarity
  rw [if_neg (by simp), magnitudeOf_singleton x hx.le, magnitudeOf_singleton y hy.le]
  rw [if_neg (by push_neg; exact ⟨ne_of_gt hx, ne_of_gt hy⟩)]
  unfold EmbeddingService.dotProductOf
  have hzip : (List.zipWith (fun a b => a * b) [x] [y]).sum = x * y := by
    simp
  rw [hzip, div_self (by positivity)]

/-- Evaluation of findSimilarDocuments on one candidate document at
similarity 1: the candidate is returned with similarity 1. -/
theorem findSimilarDocuments_singleton_eval (q d : EmbeddedDocument) (threshold : ℝ)
    (hid : d.id ≠ q.id)
    (hsim : EmbeddingService.cosineSimilarity q.embedding d.embedding = some 1)
    (hthr : threshold ≤ 1) :
    ClusteringService.findSimilarDocuments q [d] threshold none = some [(d, 1)] := by
  unfold ClusteringService.findSimilarDocuments
  have hfil : [d].filter (fun doc => decide (doc.id ≠ q.id)) = [d] := by
    simp [List.filter_cons, hid]
  rw [hfil]
  have hf : (EmbeddingService.cosineSimilarity q.embedding d.embedding).map
      (fun s => (d, s)) = some (d, (1:ℝ)) := by
    rw [hsim]
    rfl
  simp only [mapOrThrow, hf, Option.map_some']
  have hthr2 : ([(d, (1:ℝ))]).filter (fun item => decide (threshold ≤ item.2))
      = [(d, (1:ℝ))] := by
    simp [List.filter_cons, hthr]
  simp only [ClusteringService.applyLimit]
  rw [hthr2, List.mergeSort_singleton]

/-- Witness for claim C4: one candidate at similarity 1 with threshold 1/2
and no limit. -/
theorem claim_C4_witness :
    ClusteringService.findSimilarDocuments ⟨"q", "", [1]⟩ [⟨"a", "", [1]⟩] (1/2) none
      = some [(⟨"a", "", [1]⟩, (1:ℝ))]
    ∧ ((∀ p ∈ ([(⟨"a", "", [1]⟩, (1:ℝ))] : List (EmbeddedDocument × ℝ)),
          p.1.id ≠ (⟨"q", "", [1]⟩ : EmbeddedDocument).id ∧ (1:ℝ)/2 ≤ p.2)
      ∧ List.Pairwise (fun p q : EmbeddedDocument × ℝ => q.2 ≤ p.2)
          ([(⟨"a", "", [1]⟩, (1:ℝ))] : List (EmbeddedDocument × ℝ))) := by
  have hexp : ClusteringService.findSimilarDocuments ⟨"q", "", [1]⟩ [⟨"a", "", [1]⟩]
      (1/2) none = some [(⟨"a", "", [1]⟩, (1:ℝ))] :=
    findSimilarDocuments_singleton_eval ⟨"q", "", [1]⟩ ⟨"a", "", [1]⟩ (1/2)
      (by decide) (cosineSimilarity_singleton 1 1 one_pos one_pos) (by norm_num)
  exact ⟨hexp, claim_C4_findSimilar ⟨"q", "", [1]⟩ [⟨"a", "", [1]⟩] (1/2) none
    [(⟨"a", "", [1]⟩, (1:ℝ))] hexp⟩

/-- Modelled from the spec: the Euclidean distance between two vectors (the
square root of the sum of squared componentwise differences).  The
repository never implements it - it is the clustering libraries' built-in
default metric - and it is needed here only to state what the spec claims
findSimilar reports under a Euclidean-metric configuration. -/
noncomputable def euclideanDistance (a b : List ℝ) : ℝ :=
  Real.sqrt ((List.zipWith (fun x y => (x - y) * (x - y)) a b).sum)

/-- Counterexample to claim C2: findSimilarDocuments reads no metric at all
and always reports the cosine similarity.  For query vector [1] and
document vector [2] it reports similarity 1, while 1 / (1 + Euclidean
distance) would be 1/2, so under a Euclidean-metric configuration the
reported value is not 1 / (1 + distance). -/
theorem claim_C2_counterexample :
    ClusteringService.findSimilarDocuments ⟨"q", "", [1]⟩ [⟨"b", "", [2]⟩] 0 none
      = some [(⟨"b", "", [2]⟩, (1:ℝ))]
    ∧ (1:ℝ) ≠ 1 / (1 + euclideanDistance [1] [2]) := by
  constructor
  · exact findSimilarDocuments_singleton_eval ⟨"q", "", [1]⟩ ⟨"b", "", [2]⟩ 0
      (by decide) (cosineSimilarity_singleton 1 2 one_pos two_pos) (by norm_num)
  · have hed : euclideanDistance [(1:ℝ)] [2] = 1 := by
      unfold euclideanDistance
      have hsum : (List.zipWith (fun x y => (x - y) * (x - y)) [(1:ℝ)] [2]).sum = 1 := by
        simp
        norm_num
      rw [hsum, Real.sqrt_one]
    rw [hed]
    norm_num

/-- Claim C2 (amended): findSimilarDocuments takes no metric and always
reports the cosine similarity: for every returned pair, the reported
similarity is exactly the cosine similarity between the query's embedding
and that document's embedding, never 1 / (1 + Euclidean distance). -/
theorem claim_C2_amended_reports_cosine (query : EmbeddedDocument)
    (docs : List EmbeddedDocument) (threshold : ℝ) (limit : Option ℕ)
    (out : List (EmbeddedDocument × ℝ))
    (h : ClusteringService.findSimilarDocuments query docs threshold limit = some out) :
    ∀ p ∈ out, EmbeddingService.cosineSimilarity query.embedding p.1.embedding
      = some p.2 := by
  intro p hp
  exact ((findSimilarDocuments_spec query docs threshold limit out h).1 p hp).2.2.2

/-- Witness for the amended claim C2: query vector [2] against document
vector [3]; the reported similarity is their cosine similarity 1. -/
theorem claim_C2_witness :
    ClusteringService.findSimilarDocuments ⟨"q", "", [2]⟩ [⟨"c", "", [3]⟩] 0 none
      = some [(⟨"c", "", [3]⟩, (1:ℝ))]
    ∧ ∀ p ∈ ([(⟨"c", "", [3]⟩, (1:ℝ))] : List (EmbeddedDocument × ℝ)),
        EmbeddingService.cosineSimilarity
          (⟨"q", "", [2]⟩ : EmbeddedDocument).embedding p.1.embedding = some p.2 := by
  have hexp : ClusteringService.findSimilarDocuments ⟨"q", "", [2]⟩ [⟨"c", "", [3]⟩] 0 none
      = some [(⟨"c", "", [3]⟩, (1:ℝ))] :=
    findSimilarDocuments_singleton_eval ⟨"q", "", [2]⟩ ⟨"c", "", [3]⟩ 0
      (by decide) (cosineSimilarity_singleton 2 3 two_pos three_pos) (by norm_num)
  exact ⟨hexp, claim_C2_amended_reports_cosine ⟨"q", "", [2]⟩ [⟨"c", "", [3]⟩] 0 none
    [(⟨"c", "", [3]⟩, (1:ℝ))] hexp⟩

/-- A stand-in instantiation of the external density-clustering package,
used only to run the repository-side code on concrete inputs (the claim
theorems themselves quantify over every possible library). -/
def constLib : ClusteringService.DensityClusteringLib :=
  ⟨fun _ _ _ _ => [], fun _ _ _ _ => [], fun _ _ => []⟩

/-- Counterexample to claim C3: with the metric "manhattan" - neither
euclidean nor cosine - the cluster operation does not fail with a
ConfigurationError (no such error exists anywhere in the code); it runs
DBSCAN normally and returns an ok result. -/
theorem claim_C3_counterexample :
    (⟨"dbscan", none, none, none, some ("manhattan")⟩ :
        ClusteringService.ClusteringConfig).distanceMetric ≠ some ("euclidean")
    ∧ (⟨"dbscan", none, none, none, some ("manhattan")⟩ :
        ClusteringService.ClusteringConfig).distanceMetric ≠ some ("cosine")
    ∧ ClusteringService.clusterDocuments constLib
        ⟨"dbscan", none, none, none, some ("manhattan")⟩ [⟨"a", "", [0]⟩]
      = Except.ok [] :=
  ⟨by decide, by decide, rfl⟩

/-- Claim C3 (amended): a metric other than cosine never fails: the DBSCAN
dispatch passes no custom distance function to the library (the library's
Euclidean default), so the operation behaves exactly as under the euclidean
metric and returns an ok result for every library behaviour. -/
theorem claim_C3_amended_unknown_metric_no_error
    (lib : ClusteringService.DensityClusteringLib) (epsilon : Option ℝ)
    (minPoints k : Option ℕ) (m : Option String) (docs : List EmbeddedDocument)
    (hm : m ≠ some ("cosine")) :
    ClusteringService.clusterDocuments lib ⟨"dbscan", epsilon, minPoints, k, m⟩ docs
      = ClusteringService.clusterDocuments lib
          ⟨"dbscan", epsilon, minPoints, k, some ("euclidean")⟩ docs
    ∧ ∃ cs, ClusteringService.clusterDocuments lib
        ⟨"dbscan", epsilon, minPoints, k, m⟩ docs = Except.ok cs := by
  have hdb : ClusteringService.clusterWithDBSCAN lib
        ⟨"dbscan", epsilon, minPoints, k, m⟩ docs
      = ClusteringService.clusterWithDBSCAN lib
          ⟨"dbscan", epsilon, minPoints, k, some ("euclidean")⟩ docs := by
    simp only [ClusteringService.clusterWithDBSCAN]
    rw [if_neg hm, if_neg (by simp)]
  constructor
  · unfold ClusteringService.clusterDocuments
    by_cases hd : docs.length = 0
    · rw [if_pos hd, if_pos hd]
    · rw [if_neg hd, if_neg hd]
      show Except.ok (ClusteringService.clusterWithDBSCAN lib
          ⟨"dbscan", epsilon, minPoints, k, m⟩ docs)
        = Except.ok (ClusteringService.clusterWithDBSCAN lib
          ⟨"dbscan", epsilon, minPoints, k, some ("euclidean")⟩ docs)
      rw [hdb]
  · by_cases hd : docs.length = 0
    · refine ⟨[], ?_⟩
      unfold ClusteringService.clusterDocuments
      rw [if_pos hd]
    · refine ⟨ClusteringService.clusterWithDBSCAN lib
        ⟨"dbscan", epsilon, minPoints, k, m⟩ docs, ?_⟩
      unfold ClusteringService.clusterDocuments
      rw [if_neg hd]
      rfl

/-- Witness for the amended claim C3 at the metric "manhattan" with one
document and the stand-in library. -/
theorem claim_C3_witness :
    (some ("manhattan") : Option String) ≠ some ("cosine")
    ∧ (ClusteringService.clusterDocuments constLib
          ⟨"dbscan", none, none, none, some ("manhattan")⟩ [⟨"d", "", [0]⟩]
        = ClusteringService.clusterDocuments constLib
            ⟨"dbscan", none, none, none, some ("euclidean")⟩ [⟨"d", "", [0]⟩]
      ∧ ∃ cs, ClusteringService.clusterDocuments constLib
          ⟨"dbscan", none, none, none, some ("manhattan")⟩ [⟨"d", "", [0]⟩]
        = Except.ok cs) :=
  ⟨by decide, claim_C3_amended_unknown_metric_no_error constLib none none none
    (some ("manhattan")) [⟨"d", "", [0]⟩] (by decide)⟩
